import Mathlib

/-!
Verification of the bgp-exporter neighbor-status parsing engine.

This development shallowly embeds the parsing and store logic of
src/main.go.  Modelling choices, in order of appearance:

* Regular expressions.  The four Go regexes are anchored patterns whose
  character classes never overlap their delimiter literals, so greedy
  matching with backtracking is equivalent to: take the maximal run of
  the class, then require the literal delimiter.  Each matcher below is
  the direct executable transcription of its regex under that
  equivalence (Go regexp: \s is the set tab, newline, formfeed,
  carriage return, space; \w is ASCII letters, digits and underscore;
  \d is ASCII digits; a dot matures to any character except newline and
  the dollar anchors at end of text).

* net.IP.  The program observes an IP value only through net.IP.String()
  (store lookups, labels).  net.ParseIP accepts, for the strings the
  header regex can capture, exactly canonical dotted-quad IPv4 (four
  decimal components, each at most 255, no leading zeros: Go 1.17 and
  later), and String() of such a parse returns the input string; a failed
  parse gives nil, whose String() is "<nil>".  We therefore model a
  net.IP as an Option String holding the canonical text, with parseIP
  validating canonicity.

* float64 fields.  State, AcceptedPrefixes, ConnectionsEstablished and
  ConnectionsDropped are float64 in Go but only ever hold non-negative
  integers parsed from digit runs (exact in float64 for all realistic
  magnitudes); they are modelled as Nat.

* The global slice bgpNeighbors is passed as explicit state.  The
  commits field of ParseState is specification instrumentation: it
  records, in order, each execution of the commit branch (the store
  update in the Connections-line case) together with the lookup key
  used; it does not influence any computed value.

* getBgpNeighbors runs an external command; it is modelled as a function
  of the command outcome.  Its log.Fatalf branch (which terminates the
  process) is modelled as a fatal result carrying the formatted message.
-/

namespace BgpExporter

/-- Go regexp class \s: the characters tab, newline, formfeed, carriage
return and space. -/
def isWSChar (c : Char) : Bool :=
  c = ' ' || c = '\t' || c = '\n' || c = '\x0c' || c = '\r'

/-- Go regexp class \w: ASCII letters, ASCII digits and underscore. -/
def isWordChar (c : Char) : Bool :=
  c.isAlpha || c.isDigit || c = '_'

/-- Class [\d.] of the neighbor-header regex. -/
def isAddrChar (c : Char) : Bool :=
  c.isDigit || c = '.'

/-- Strip a literal from the front of a character list, returning the
remainder on success. -/
def stripPre : List Char → List Char → Option (List Char)
  | [], rest => some rest
  | _ :: _, [] => none
  | p :: ps, c :: cs => if c = p then stripPre ps cs else none

/-- Decimal value of a digit run (the integer a Go strconv parse of the
run denotes). -/
def digitRunVal (l : List Char) : Nat :=
  l.foldl (fun a c => 10 * a + (c.toNat - 48)) 0

/-- Go regexp dot excludes newline; with the end-of-text anchor, a
trailing dot-star requires the remainder to be newline free. -/
def noNl (l : List Char) : Bool :=
  l.all (fun c => c != '\n')

/-- Matcher for bgpNeighborRegex, the anchored pattern: literal
"BGP neighbor is ", a captured nonempty run of digits and dots, a comma,
a space, then anything without newline. -/
def matchHeader (line : String) : Option String :=
  match stripPre "BGP neighbor is ".data line.data with
  | none => none
  | some rest =>
    match rest.takeWhile isAddrChar, rest.dropWhile isAddrChar with
    | [], _ => none
    | run, ',' :: ' ' :: tail => if noNl tail then some (String.mk run) else none
    | _ :: _, _ => none

/-- Matcher for bgpStateRegex: leading whitespace, literal
"BGP state = ", a captured nonempty word run, a comma, a space, then
anything without newline. -/
def matchState (line : String) : Option String :=
  match line.data.takeWhile isWSChar, line.data.dropWhile isWSChar with
  | [], _ => none
  | _ :: _, r1 =>
    match stripPre "BGP state = ".data r1 with
    | none => none
    | some r2 =>
      match r2.takeWhile isWordChar, r2.dropWhile isWordChar with
      | [], _ => none
      | w, ',' :: ' ' :: tail => if noNl tail then some (String.mk w) else none
      | _ :: _, _ => none

/-- Matcher for bgpAcceptedPrefixesRegex: leading whitespace, a captured
nonempty digit run, literal " accepted prefixes", then word characters
to end of text. -/
def matchPrefixes (line : String) : Option Nat :=
  match line.data.takeWhile isWSChar, line.data.dropWhile isWSChar with
  | [], _ => none
  | _ :: _, r1 =>
    match r1.takeWhile Char.isDigit, r1.dropWhile Char.isDigit with
    | [], _ => none
    | d, r2 =>
      match stripPre " accepted prefixes".data r2 with
      | none => none
      | some r3 => if r3.all isWordChar then some (digitRunVal d) else none

/-- Matcher for bgpConnectionsEstablishedDroppedRegex: leading
whitespace, literal "Connections established ", a captured nonempty
digit run, literal "; dropped ", a captured nonempty digit run, then
word characters to end of text. -/
def matchCounters (line : String) : Option (Nat × Nat) :=
  match line.data.takeWhile isWSChar, line.data.dropWhile isWSChar with
  | [], _ => none
  | _ :: _, r1 =>
    match stripPre "Connections established ".data r1 with
    | none => none
    | some r2 =>
      match r2.takeWhile Char.isDigit, r2.dropWhile Char.isDigit with
      | [], _ => none
      | d1, r3 =>
        match stripPre "; dropped ".data r3 with
        | none => none
        | some r4 =>
          match r4.takeWhile Char.isDigit, r4.dropWhile Char.isDigit with
          | [], _ => none
          | d2, r5 =>
            if r5.all isWordChar then some (digitRunVal d1, digitRunVal d2)
            else none

/-- Split a character list at dots (the component decomposition of a
candidate dotted-quad address). -/
def splitDots : List Char → List Char → List (List Char)
  | [], acc => [acc.reverse]
  | '.' :: rest, acc => acc.reverse :: splitDots rest []
  | c :: rest, acc => splitDots rest (c :: acc)

/-- A canonical IPv4 component: nonempty, all digits, no leading zero
unless it is exactly "0", value at most 255. -/
def isCanonicalOctet (l : List Char) : Bool :=
  !l.isEmpty && l.all Char.isDigit &&
    (l.length = 1 || l.headD ' ' != '0') && digitRunVal l ≤ 255

/-- The strings accepted by Go net.ParseIP among those the header regex
can capture: canonical dotted-quad IPv4 text. -/
def isValidIPv4 (s : String) : Bool :=
  match splitDots s.data [] with
  | [a, b, c, d] =>
    isCanonicalOctet a && isCanonicalOctet b && isCanonicalOctet c &&
      isCanonicalOctet d
  | _ => false

/-- Model of net.ParseIP at the observational (String) level: a valid
address parses to itself (its canonical text), anything else to none
(Go nil). -/
def parseIP (s : String) : Option String :=
  if isValidIPv4 s then some s else none

/-- Model of net.IP.String(): the canonical text for a parsed address,
"<nil>" for the nil IP. -/
def ipKeyString : Option String → String
  | some s => s
  | none => "<nil>"

/-- The switch in parseBGP converting a captured state word to its
ordinal; the local variable state keeps its zero value when no case
matches, and is assigned unconditionally. -/
def stateOrd (w : String) : Nat :=
  if w = "Idle" then 1
  else if w = "Connect" then 2
  else if w = "Active" then 3
  else if w = "Opensent" then 4
  else if w = "Openconfirm" then 5
  else if w = "Established" then 6
  else 0

/-- The BgpNeighbor struct of main.go (see the modelling notes above for
the ip and Nat fields). -/
structure BgpNeighbor where
  ip : Option String
  state : Nat
  acceptedPrefixes : Nat
  connectionsEstablished : Nat
  connectionsDropped : Nat
deriving Repr, DecidableEq

/-- The Go zero value new(BgpNeighbor): nil IP, zero numeric fields. -/
def newRecord : BgpNeighbor :=
  { ip := none, state := 0, acceptedPrefixes := 0,
    connectionsEstablished := 0, connectionsDropped := 0 }

/-- The commit block of parseBGP (lines 156 to 165 of main.go): scan the
store, replacing every entry whose IP text equals the current neighbor
key, and append the record when none matched. -/
def upsert (store : List BgpNeighbor) (key : String) (r : BgpNeighbor) :
    List BgpNeighbor :=
  if ∃ e ∈ store, ipKeyString e.ip = key then
    store.map (fun e => if ipKeyString e.ip = key then r else e)
  else store ++ [r]

/-- The mutable state of one parseBGP run: the locals neigh and bgpNeigh,
the global store bgpNeighbors, and the instrumented commit trace. -/
structure ParseState where
  neigh : String
  bgpNeigh : BgpNeighbor
  store : List BgpNeighbor
  commits : List (String × BgpNeighbor)
deriving Repr, DecidableEq

/-- One iteration of the parseBGP loop body on a single line, in source
order: the header test (which resets neigh and allocates a fresh
record), then, when a neighbor is active, the IP assignment followed by
the state, accepted-prefixes and connection-counters tests, the last of
which performs the store commit. -/
def stepLine (st : ParseState) (line : String) : ParseState :=
  let st1 :=
    match matchHeader line with
    | some a => { st with neigh := a, bgpNeigh := newRecord }
    | none => st
  if st1.neigh = "" then st1
  else
    let r0 := { st1.bgpNeigh with ip := parseIP st1.neigh }
    let r1 :=
      match matchState line with
      | some w => { r0 with state := stateOrd w }
      | none => r0
    let r2 :=
      match matchPrefixes line with
      | some n => { r1 with acceptedPrefixes := n }
      | none => r1
    match matchCounters line with
    | some p =>
      let r3 := { r2 with connectionsEstablished := p.1,
                          connectionsDropped := p.2 }
      { st1 with bgpNeigh := r3,
                 store := upsert st1.store st1.neigh r3,
                 commits := st1.commits ++ [(st1.neigh, r3)] }
    | none => { st1 with bgpNeigh := r2 }

/-- The parseBGP loop over a list of lines. -/
def parseLines (st : ParseState) (lines : List String) : ParseState :=
  lines.foldl stepLine st

/-- One call of parseBGP on pre-split lines, with the current global
store: locals start empty, as at function entry. -/
def runLines (lines : List String) (store : List BgpNeighbor) : ParseState :=
  parseLines { neigh := "", bgpNeigh := newRecord, store := store,
               commits := [] } lines

/-- strings.TrimSuffix with suffix a single newline: drop one trailing
newline character if present. -/
def trimOneNl (l : List Char) : List Char :=
  match l.reverse with
  | '\n' :: rest => rest.reverse
  | _ => l

/-- strings.Split on a single newline separator. -/
def splitNl : List Char → List Char → List String
  | [], acc => [String.mk acc.reverse]
  | '\n' :: rest, acc => String.mk acc.reverse :: splitNl rest []
  | c :: rest, acc => splitNl rest (c :: acc)

/-- The line decomposition performed by parseBGP: TrimSuffix of one
trailing newline, then Split on newline. -/
def splitLines (s : String) : List String :=
  splitNl (trimOneNl s.data) []

/-- The whole parseBGP function on a raw text blob. -/
def parseBGP (s : String) (store : List BgpNeighbor) : ParseState :=
  runLines (splitLines s) store

/-- Result of an operation that may end the process (log.Fatalf). -/
inductive ProcResult (α : Type) where
  | fatal (msg : String)
  | ok (val : α)
deriving Repr, DecidableEq

/-- getBgpNeighbors as a function of the external command outcome: a
command error triggers log.Fatalf with the formatted message (process
termination); success yields the captured stdout and stderr. -/
def getBgpNeighbors (runResult : Except String (String × String)) :
    ProcResult (String × String) :=
  match runResult with
  | Except.error e =>
    ProcResult.fatal ("Failed to execute vtysh command: " ++ e ++ "\n")
  | Except.ok out => ProcResult.ok out

/-- Outcome of one iteration of the recordMetrics poll loop. -/
inductive CycleOutcome where
  | fatal (msg : String)
  | ran
deriving Repr, DecidableEq

/-- One poll-loop iteration: acquire the router text, then parse it into
the store; an acquisition failure terminates the process (the store is
whatever it was at termination). -/
def pollCycle (runResult : Except String (String × String))
    (store : List BgpNeighbor) : CycleOutcome × List BgpNeighbor :=
  match getBgpNeighbors runResult with
  | ProcResult.fatal m => (CycleOutcome.fatal m, store)
  | ProcResult.ok out => (CycleOutcome.ran, (parseBGP out.1 store).store)

/-- The six state words recognized by the parseBGP switch. -/
def recognizedStateWords : List String :=
  ["Idle", "Connect", "Active", "Opensent", "Openconfirm", "Established"]

/-- The assignment bgpNeigh.IP = net.ParseIP(neigh) performed on every
line while a neighbor is active. -/
def updIp (k : String) (b : BgpNeighbor) : BgpNeighbor :=
  { b with ip := parseIP k }

/-- The assignment bgpNeigh.State = state after the conversion switch. -/
def updState (w : String) (b : BgpNeighbor) : BgpNeighbor :=
  { b with state := stateOrd w }

/-- The assignment bgpNeigh.AcceptedPrefixes = pref. -/
def updPfx (n : Nat) (b : BgpNeighbor) : BgpNeighbor :=
  { b with acceptedPrefixes := n }

/-- The paired assignments of ConnectionsEstablished and
ConnectionsDropped from one counters line. -/
def updCtr (e d : Nat) (b : BgpNeighbor) : BgpNeighbor :=
  { b with connectionsEstablished := e, connectionsDropped := d }

/-- A line matching none of the four classifier patterns. -/
def Unrecognized (l : String) : Prop :=
  matchHeader l = none ∧ matchState l = none ∧ matchPrefixes l = none ∧
    matchCounters l = none

instance (l : String) : Decidable (Unrecognized l) := by
  unfold Unrecognized; infer_instance

/-- State invariant of the parse loop: while a neighbor is active, the
in-progress record's IP is the parse of the active neighbor text (the
loop reassigns it on every line). -/
def InvSt (st : ParseState) : Prop :=
  st.neigh ≠ "" → st.bgpNeigh.ip = parseIP st.neigh

/-- The second list arises from the first by inserting, at arbitrary
positions, lines that match none of the four classifier patterns. -/
inductive Noisy : List String → List String → Prop
  | nil : Noisy [] []
  | keep {xs ys : List String} (l : String) :
      Noisy xs ys → Noisy (l :: xs) (l :: ys)
  | noise {xs ys : List String} (l : String) :
      Unrecognized l → Noisy xs ys → Noisy xs (l :: ys)

/-- The record committed for one complete neighbor entry, built from the
captured address, state word, accepted-prefix count and the two
connection counters. -/
def entryRecord (a w : String) (p e d : Nat) : BgpNeighbor :=
  { ip := parseIP a, state := stateOrd w, acceptedPrefixes := p,
    connectionsEstablished := e, connectionsDropped := d }

/-- The identity keys of the stored records, in store order (the strings
the commit scan compares against). -/
def keysOf (store : List BgpNeighbor) : List String :=
  store.map (fun e => ipKeyString e.ip)

/-- Every parsed identity held in the store is canonical address text
(true of every record the program ever stores, since stored IPs come
from net.ParseIP). -/
def StoreWF (store : List BgpNeighbor) : Prop :=
  ∀ e ∈ store, ∀ s, e.ip = some s → isValidIPv4 s = true

/-- No two stored records carry the same parsed identity; records with
nil identity are unconstrained. -/
def UniqueIds (store : List BgpNeighbor) : Prop :=
  store.Pairwise (fun a b => ∀ s, a.ip = some s → b.ip ≠ some s)

/-- One complete neighbor entry of a well-formed block: its four source
lines together with the values they capture. -/
structure EntryLines where
  lh : String
  ls : String
  lp : String
  lc : String
  addr : String
  word : String
  pfx : Nat
  est : Nat
  drp : Nat

/-- The four lines of one entry, in source order. -/
def entryLinesList (q : EntryLines) : List String :=
  [q.lh, q.ls, q.lp, q.lc]

/-- The concatenated lines of a block of entries. -/
def blockOf : List EntryLines → List String
  | [] => []
  | q :: qs => entryLinesList q ++ blockOf qs

/-- The entry is well formed: each of its four lines classifies as the
corresponding pattern and captures the stated values, the address is a
valid network address, and the state word is recognized. -/
def WellFormedEntry (q : EntryLines) : Prop :=
  matchHeader q.lh = some q.addr ∧ isValidIPv4 q.addr = true ∧
    matchState q.ls = some q.word ∧ q.word ∈ recognizedStateWords ∧
    matchPrefixes q.lp = some q.pfx ∧ matchCounters q.lc = some (q.est, q.drp)

instance (q : EntryLines) : Decidable (WellFormedEntry q) := by
  unfold WellFormedEntry; infer_instance

/-- The header line of the worked example in the specification. -/
def exHeaderLine : String := "BGP neighbor is 10.0.0.1, remote AS ..."

/-- The session-state line of the worked example. -/
def exStateLine : String := "  BGP state = Established, up for 3d"

/-- The accepted-prefixes line of the worked example. -/
def exPfxLine : String := "  5 accepted prefixes"

/-- The connection-counters line of the worked example. -/
def exCtrLine : String := "  Connections established 12; dropped 1"

/-- The worked example as a complete entry. -/
def exEntry : EntryLines :=
  { lh := exHeaderLine, ls := exStateLine, lp := exPfxLine, lc := exCtrLine,
    addr := "10.0.0.1", word := "Established", pfx := 5, est := 12, drp := 1 }

/-- The locals of parseBGP at function entry, with an empty store. -/
def exInit : ParseState :=
  { neigh := "", bgpNeigh := newRecord, store := [], commits := [] }

/-- The worked example's committed record. -/
def exRec1 : BgpNeighbor := entryRecord "10.0.0.1" "Established" 5 12 1

/-- An updated record for the same identity. -/
def exRec2 : BgpNeighbor := entryRecord "10.0.0.1" "Idle" 7 13 2

/-- The parse state reached after the example header and a first counters
line have been processed: one record already committed. -/
def exPostCommit : ParseState :=
  runLines [exHeaderLine, "  Connections established 1; dropped 2"] []

theorem stripPre_head {p : Char} {ps l r : List Char}
    (h : stripPre (p :: ps) l = some r) : ∃ tl, l = p :: tl := by
  cases l with
  | nil => simp [stripPre] at h
  | cons c cs =>
    by_cases hc : c = p
    · exact ⟨cs, by rw [hc]⟩
    · simp [stripPre, hc] at h

theorem takeWhile_eq_cons {p : Char → Bool} {l cs : List Char} {c : Char}
    (h : l.takeWhile p = c :: cs) : ∃ tl, l = c :: tl ∧ p c = true := by
  cases l with
  | nil => simp [List.takeWhile] at h
  | cons x xs =>
    rw [List.takeWhile_cons] at h
    by_cases hp : p x
    · rw [if_pos hp] at h
      injection h with h1 h2
      subst h1
      exact ⟨xs, rfl, hp⟩
    · rw [if_neg hp] at h; exact absurd h (by simp)

theorem matchHeader_shape {l : String} {a : String}
    (h : matchHeader l = some a) : ∃ tl, l.data = 'B' :: tl := by
  unfold matchHeader at h
  cases h1 : stripPre "BGP neighbor is ".data l.data with
  | none => rw [h1] at h; exact absurd h (by simp)
  | some rest =>
    have : "BGP neighbor is ".data = 'B' :: "GP neighbor is ".data := rfl
    rw [this] at h1
    exact stripPre_head h1

theorem matchState_shape {l : String} {w : String}
    (h : matchState l = some w) :
    (∃ c cs, l.data = c :: cs ∧ isWSChar c = true) ∧
      (∃ tl, l.data.dropWhile isWSChar = 'B' :: tl) := by
  unfold matchState at h
  cases h1 : l.data.takeWhile isWSChar with
  | nil => rw [h1] at h; exact absurd h (by simp)
  | cons c cs =>
    rw [h1] at h
    dsimp only at h
    refine ⟨?_, ?_⟩
    · obtain ⟨tl, hl, hc⟩ := takeWhile_eq_cons h1
      exact ⟨c, tl, hl, hc⟩
    · cases h2 : stripPre "BGP state = ".data (l.data.dropWhile isWSChar) with
      | none => rw [h2] at h; exact absurd h (by simp)
      | some r2 =>
        have : "BGP state = ".data = 'B' :: "GP state = ".data := rfl
        rw [this] at h2
        exact stripPre_head h2

theorem matchPrefixes_shape {l : String} {n : Nat}
    (h : matchPrefixes l = some n) :
    (∃ c cs, l.data = c :: cs ∧ isWSChar c = true) ∧
      (∃ c tl, l.data.dropWhile isWSChar = c :: tl ∧ c.isDigit = true) := by
  unfold matchPrefixes at h
  cases h1 : l.data.takeWhile isWSChar with
  | nil => rw [h1] at h; exact absurd h (by simp)
  | cons c cs =>
    rw [h1] at h
    dsimp only at h
    refine ⟨?_, ?_⟩
    · obtain ⟨tl, hl, hc⟩ := takeWhile_eq_cons h1
      exact ⟨c, tl, hl, hc⟩
    · cases h2 : (l.data.dropWhile isWSChar).takeWhile Char.isDigit with
      | nil => rw [h2] at h; exact absurd h (by simp)
      | cons d ds =>
        obtain ⟨tl, hl, hd⟩ := takeWhile_eq_cons h2
        exact ⟨d, tl, hl, hd⟩

theorem matchCounters_shape {l : String} {p : Nat × Nat}
    (h : matchCounters l = some p) :
    (∃ c cs, l.data = c :: cs ∧ isWSChar c = true) ∧
      (∃ tl, l.data.dropWhile isWSChar = 'C' :: tl) := by
  unfold matchCounters at h
  cases h1 : l.data.takeWhile isWSChar with
  | nil => rw [h1] at h; exact absurd h (by simp)
  | cons c cs =>
    rw [h1] at h
    dsimp only at h
    refine ⟨?_, ?_⟩
    · obtain ⟨tl, hl, hc⟩ := takeWhile_eq_cons h1
      exact ⟨c, tl, hl, hc⟩
    · cases h2 : stripPre "Connections established ".data
          (l.data.dropWhile isWSChar) with
      | none => rw [h2] at h; exact absurd h (by simp)
      | some r2 =>
        have : "Connections established ".data
            = 'C' :: "onnections established ".data := rfl
        rw [this] at h2
        exact stripPre_head h2

theorem state_none_of_header {l a} (h : matchHeader l = some a) :
    matchState l = none := by
  cases hs : matchState l with
  | none => rfl
  | some w =>
    obtain ⟨tl, hB⟩ := matchHeader_shape h
    obtain ⟨⟨c, cs, hc, hws⟩, -⟩ := matchState_shape hs
    rw [hB] at hc
    injection hc with hc1 hc2
    rw [← hc1] at hws
    exact absurd hws (by decide)

theorem pfx_none_of_header {l a} (h : matchHeader l = some a) :
    matchPrefixes l = none := by
  cases hs : matchPrefixes l with
  | none => rfl
  | some n =>
    obtain ⟨tl, hB⟩ := matchHeader_shape h
    obtain ⟨⟨c, cs, hc, hws⟩, -⟩ := matchPrefixes_shape hs
    rw [hB] at hc
    injection hc with hc1 hc2
    rw [← hc1] at hws
    exact absurd hws (by decide)

theorem ctr_none_of_header {l a} (h : matchHeader l = some a) :
    matchCounters l = none := by
  cases hs : matchCounters l with
  | none => rfl
  | some p =>
    obtain ⟨tl, hB⟩ := matchHeader_shape h
    obtain ⟨⟨c, cs, hc, hws⟩, -⟩ := matchCounters_shape hs
    rw [hB] at hc
    injection hc with hc1 hc2
    rw [← hc1] at hws
    exact absurd hws (by decide)

theorem header_none_of_state {l w} (h : matchState l = some w) :
    matchHeader l = none := by
  cases hs : matchHeader l with
  | none => rfl
  | some a =>
    obtain ⟨tl, hB⟩ := matchHeader_shape hs
    obtain ⟨⟨c, cs, hc, hws⟩, -⟩ := matchState_shape h
    rw [hB] at hc
    injection hc with hc1 hc2
    rw [← hc1] at hws
    exact absurd hws (by decide)

theorem header_none_of_pfx {l n} (h : matchPrefixes l = some n) :
    matchHeader l = none := by
  cases hs : matchHeader l with
  | none => rfl
  | some a =>
    obtain ⟨tl, hB⟩ := matchHeader_shape hs
    obtain ⟨⟨c, cs, hc, hws⟩, -⟩ := matchPrefixes_shape h
    rw [hB] at hc
    injection hc with hc1 hc2
    rw [← hc1] at hws
    exact absurd hws (by decide)

theorem header_none_of_ctr {l p} (h : matchCounters l = some p) :
    matchHeader l = none := by
  cases hs : matchHeader l with
  | none => rfl
  | some a =>
    obtain ⟨tl, hB⟩ := matchHeader_shape hs
    obtain ⟨⟨c, cs, hc, hws⟩, -⟩ := matchCounters_shape h
    rw [hB] at hc
    injection hc with hc1 hc2
    rw [← hc1] at hws
    exact absurd hws (by decide)

theorem pfx_none_of_state {l w} (h : matchState l = some w) :
    matchPrefixes l = none := by
  cases hs : matchPrefixes l with
  | none => rfl
  | some n =>
    obtain ⟨-, ⟨tl, hB⟩⟩ := matchState_shape h
    obtain ⟨-, ⟨c, tl2, hc, hd⟩⟩ := matchPrefixes_shape hs
    rw [hB] at hc
    injection hc with hc1 hc2
    rw [← hc1] at hd
    exact absurd hd (by decide)

theorem ctr_none_of_state {l w} (h : matchState l = some w) :
    matchCounters l = none := by
  cases hs : matchCounters l with
  | none => rfl
  | some p =>
    obtain ⟨-, ⟨tl, hB⟩⟩ := matchState_shape h
    obtain ⟨-, ⟨tl2, hC⟩⟩ := matchCounters_shape hs
    rw [hB] at hC
    injection hC with hc1 hc2
    exact absurd hc1 (by decide)

theorem state_none_of_pfx {l n} (h : matchPrefixes l = some n) :
    matchState l = none := by
  cases hs : matchState l with
  | none => rfl
  | some w =>
    obtain ⟨-, ⟨tl, hB⟩⟩ := matchState_shape hs
    obtain ⟨-, ⟨c, tl2, hc, hd⟩⟩ := matchPrefixes_shape h
    rw [hB] at hc
    injection hc with hc1 hc2
    rw [← hc1] at hd
    exact absurd hd (by decide)

theorem ctr_none_of_pfx {l n} (h : matchPrefixes l = some n) :
    matchCounters l = none := by
  cases hs : matchCounters l with
  | none => rfl
  | some p =>
    obtain ⟨-, ⟨c, tl, hc, hd⟩⟩ := matchPrefixes_shape h
    obtain ⟨-, ⟨tl2, hC⟩⟩ := matchCounters_shape hs
    rw [hC] at hc
    injection hc with hc1 hc2
    rw [← hc1] at hd
    exact absurd hd (by decide)

theorem state_none_of_ctr {l p} (h : matchCounters l = some p) :
    matchState l = none := by
  cases hs : matchState l with
  | none => rfl
  | some w => exact absurd h (by rw [ctr_none_of_state hs]; simp)

theorem pfx_none_of_ctr {l p} (h : matchCounters l = some p) :
    matchPrefixes l = none := by
  cases hs : matchPrefixes l with
  | none => rfl
  | some n => exact absurd h (by rw [ctr_none_of_pfx hs]; simp)

theorem matchHeader_capture_ne_empty {l a} (h : matchHeader l = some a) :
    a ≠ "" := by
  unfold matchHeader at h
  cases h1 : stripPre "BGP neighbor is ".data l.data with
  | none => rw [h1] at h; exact absurd h (by simp)
  | some rest =>
    rw [h1] at h
    dsimp only at h
    cases h2 : rest.takeWhile isAddrChar with
    | nil => rw [h2] at h; exact absurd h (by simp)
    | cons c cs =>
      rw [h2] at h
      intro he
      subst he
      split at h
      · exact absurd h (by simp)
      · rename_i heq1 heq2
        split at h
        · injection h with h3
          have := congrArg String.data h3
          simp at this
        · exact absurd h (by simp)
      · exact absurd h (by simp)

theorem step_header {st : ParseState} {l a : String}
    (hh : matchHeader l = some a) :
    stepLine st l = { st with neigh := a, bgpNeigh := updIp a newRecord } := by
  have hs := state_none_of_header hh
  have hp := pfx_none_of_header hh
  have hc := ctr_none_of_header hh
  have ha := matchHeader_capture_ne_empty hh
  simp [stepLine, hh, hs, hp, hc, ha, updIp]

theorem step_state {st : ParseState} {l w : String}
    (h : matchState l = some w) (hn : st.neigh ≠ "") :
    stepLine st l
      = { st with bgpNeigh := updState w (updIp st.neigh st.bgpNeigh) } := by
  have hh := header_none_of_state h
  have hp := pfx_none_of_state h
  have hc := ctr_none_of_state h
  simp [stepLine, hh, h, hp, hc, hn, updIp, updState]

theorem step_pfx {st : ParseState} {l : String} {n : Nat}
    (h : matchPrefixes l = some n) (hn : st.neigh ≠ "") :
    stepLine st l
      = { st with bgpNeigh := updPfx n (updIp st.neigh st.bgpNeigh) } := by
  have hh := header_none_of_pfx h
  have hs := state_none_of_pfx h
  have hc := ctr_none_of_pfx h
  simp [stepLine, hh, hs, h, hc, hn, updIp, updPfx]

theorem step_ctr {st : ParseState} {l : String} {e d : Nat}
    (h : matchCounters l = some (e, d)) (hn : st.neigh ≠ "") :
    stepLine st l
      = { st with bgpNeigh := updCtr e d (updIp st.neigh st.bgpNeigh)
                , store := upsert st.store st.neigh
                    (updCtr e d (updIp st.neigh st.bgpNeigh))
                , commits := st.commits
                    ++ [(st.neigh, updCtr e d (updIp st.neigh st.bgpNeigh))] } := by
  have hh := header_none_of_ctr h
  have hs := state_none_of_ctr h
  have hp := pfx_none_of_ctr h
  simp [stepLine, hh, hs, hp, h, hn, updIp, updCtr]

theorem step_allNone {st : ParseState} {l : String}
    (hh : matchHeader l = none) (hs : matchState l = none)
    (hp : matchPrefixes l = none) (hc : matchCounters l = none)
    (hn : st.neigh ≠ "") :
    stepLine st l = { st with bgpNeigh := updIp st.neigh st.bgpNeigh } := by
  simp [stepLine, hh, hs, hp, hc, hn, updIp]

theorem step_noNeigh {st : ParseState} {l : String}
    (hh : matchHeader l = none) (hn : st.neigh = "") :
    stepLine st l = st := by
  simp [stepLine, hh, hn]

theorem updIp_id {b : BgpNeighbor} {k : String} (h : b.ip = parseIP k) :
    updIp k b = b := by
  unfold updIp
  rw [← h]

theorem inv_step {st : ParseState} (l : String) (h : InvSt st) :
    InvSt (stepLine st l) := by
  cases hh : matchHeader l with
  | some a =>
    rw [step_header hh]
    intro hn
    simp [updIp]
  | none =>
    by_cases hn : st.neigh = ""
    · rw [step_noNeigh hh hn]; exact h
    · cases hs : matchState l with
      | some w =>
        rw [step_state hs hn]
        intro hn2
        simp [updState, updIp]
      | none =>
        cases hp : matchPrefixes l with
        | some n =>
          rw [step_pfx hp hn]
          intro hn2
          simp [updPfx, updIp]
        | none =>
          cases hc : matchCounters l with
          | some q =>
            obtain ⟨e, d⟩ := q
            rw [step_ctr hc hn]
            intro hn2
            simp [updCtr, updIp]
          | none =>
            rw [step_allNone hh hs hp hc hn]
            intro hn2
            simp [updIp]

theorem step_unrec {st : ParseState} {l : String} (hi : InvSt st)
    (hu : Unrecognized l) : stepLine st l = st := by
  obtain ⟨hh, hs, hp, hc⟩ := hu
  by_cases hn : st.neigh = ""
  · exact step_noNeigh hh hn
  · rw [step_allNone hh hs hp hc hn, updIp_id (hi hn)]

theorem parseLines_noisy {xs ys : List String} (h : Noisy xs ys) :
    ∀ st : ParseState, InvSt st → parseLines st ys = parseLines st xs := by
  induction h with
  | nil => intro st _; rfl
  | keep l h ih =>
    intro st hi
    simp only [parseLines, List.foldl_cons] at *
    exact ih _ (inv_step l hi)
  | noise l hu h ih =>
    intro st hi
    simp only [parseLines, List.foldl_cons] at *
    rw [step_unrec hi hu]
    exact ih st hi

theorem parseIP_eq_some {s t : String} (h : parseIP s = some t) :
    s = t ∧ isValidIPv4 s = true := by
  unfold parseIP at h
  by_cases hv : isValidIPv4 s
  · rw [if_pos hv] at h
    injection h with h1
    exact ⟨h1, hv⟩
  · rw [if_neg hv] at h
    exact absurd h (by simp)

theorem upsert_not_found {store : List BgpNeighbor} {k : String}
    {r : BgpNeighbor} (h : ∀ e ∈ store, ipKeyString e.ip ≠ k) :
    upsert store k r = store ++ [r] := by
  have hne : ¬ ∃ e ∈ store, ipKeyString e.ip = k := by
    rintro ⟨e, he, hk⟩
    exact h e he hk
  rw [upsert, if_neg hne]

theorem upsert_found {store : List BgpNeighbor} {k : String}
    {r : BgpNeighbor} (h : ∃ e ∈ store, ipKeyString e.ip = k) :
    upsert store k r
      = store.map (fun e => if ipKeyString e.ip = k then r else e) := by
  rw [upsert, if_pos h]

theorem upsert_length_ge (store : List BgpNeighbor) (k : String)
    (r : BgpNeighbor) : store.length ≤ (upsert store k r).length := by
  unfold upsert
  split
  · simp
  · simp

theorem step_store_commits_of_no_ctr (st : ParseState) {l : String}
    (hc : matchCounters l = none) :
    (stepLine st l).store = st.store ∧ (stepLine st l).commits = st.commits := by
  cases hh : matchHeader l with
  | some a => rw [step_header hh]; exact ⟨rfl, rfl⟩
  | none =>
    by_cases hn : st.neigh = ""
    · rw [step_noNeigh hh hn]; exact ⟨rfl, rfl⟩
    · cases hs : matchState l with
      | some w => rw [step_state hs hn]; exact ⟨rfl, rfl⟩
      | none =>
        cases hp : matchPrefixes l with
        | some n => rw [step_pfx hp hn]; exact ⟨rfl, rfl⟩
        | none => rw [step_allNone hh hs hp hc hn]; exact ⟨rfl, rfl⟩

theorem parseLines_no_ctr {ls : List String} :
    ∀ st : ParseState, (∀ l ∈ ls, matchCounters l = none) →
      (parseLines st ls).store = st.store ∧
        (parseLines st ls).commits = st.commits := by
  induction ls with
  | nil => intro st _; exact ⟨rfl, rfl⟩
  | cons l ls ih =>
    intro st h
    have h1 := step_store_commits_of_no_ctr st (h l (by simp))
    have h2 := ih (stepLine st l) (fun x hx => h x (by simp [hx]))
    simp only [parseLines, List.foldl_cons] at *
    exact ⟨h2.1.trans h1.1, h2.2.trans h1.2⟩

theorem step_entry {st : ParseState} {lh ls lp lc a w : String}
    {pv ev dv : Nat}
    (hh : matchHeader lh = some a)
    (hs : matchState ls = some w)
    (hp : matchPrefixes lp = some pv)
    (hc : matchCounters lc = some (ev, dv)) :
    parseLines st [lh, ls, lp, lc]
      = { st with neigh := a
                , bgpNeigh := entryRecord a w pv ev dv
                , store := upsert st.store a (entryRecord a w pv ev dv)
                , commits := st.commits ++ [(a, entryRecord a w pv ev dv)] } := by
  have ha := matchHeader_capture_ne_empty hh
  show stepLine (stepLine (stepLine (stepLine st lh) ls) lp) lc = _
  rw [step_header hh]
  rw [step_state hs ha]
  rw [step_pfx hp ha]
  rw [step_ctr hc ha]
  simp [updIp, updState, updPfx, updCtr, entryRecord, newRecord]

theorem valid_ne_nilkey {k : String} (hv : isValidIPv4 k = true) :
    k ≠ "<nil>" := by
  intro h
  rw [h] at hv
  exact absurd hv (by decide)

theorem ip_eq_of_key {e : BgpNeighbor} {k : String}
    (hv : isValidIPv4 k = true) (hk : ipKeyString e.ip = k) :
    e.ip = some k := by
  cases he : e.ip with
  | some s =>
    rw [he] at hk
    rw [show ipKeyString (some s) = s from rfl] at hk
    rw [hk]
  | none =>
    rw [he] at hk
    exact absurd hk.symm (valid_ne_nilkey hv)

theorem r_ip_cases {r : BgpNeighbor} {k : String} (hr : r.ip = parseIP k) :
    r.ip = none ∨ (r.ip = some k ∧ isValidIPv4 k = true) := by
  unfold parseIP at hr
  by_cases hv : isValidIPv4 k
  · right
    rw [if_pos hv] at hr
    exact ⟨hr, hv⟩
  · left
    rw [if_neg hv] at hr
    exact hr

theorem key_of_replacement {e r : BgpNeighbor} {k : String}
    (hr : r.ip = parseIP k) (hk : ipKeyString e.ip = k)
    (hwf : ∀ s, e.ip = some s → isValidIPv4 s = true) :
    ipKeyString r.ip = ipKeyString e.ip := by
  rw [hk]
  cases he : e.ip with
  | some s =>
    rw [he] at hk
    rw [show ipKeyString (some s) = s from rfl] at hk
    subst hk
    have hv := hwf s he
    rw [hr, parseIP, if_pos hv]
    rfl
  | none =>
    rw [he] at hk
    rw [show ipKeyString (none : Option String) = "<nil>" from rfl] at hk
    have : isValidIPv4 k = false := by
      cases hkv : isValidIPv4 k with
      | false => rfl
      | true => exact absurd (hk ▸ hkv) (by decide)
    rw [hr, parseIP, this]
    simp only [Bool.false_eq_true, if_false]
    exact hk

theorem keysOf_take_self (s : List BgpNeighbor) :
    (keysOf s).take s.length = keysOf s := by
  have h : (keysOf s).length = s.length := by simp [keysOf]
  rw [← h, List.take_length]

theorem upsert_keys_take {store : List BgpNeighbor} {k : String}
    {r : BgpNeighbor} (hr : r.ip = parseIP k) (hwf : StoreWF store) :
    store.length ≤ (upsert store k r).length ∧
      (keysOf (upsert store k r)).take store.length = keysOf store := by
  by_cases hex : ∃ e ∈ store, ipKeyString e.ip = k
  · rw [upsert_found hex]
    constructor
    · simp
    · have hmap : keysOf (store.map
          (fun e => if ipKeyString e.ip = k then r else e)) = keysOf store := by
        unfold keysOf
        rw [List.map_map]
        apply List.map_congr_left
        intro e he
        by_cases hk : ipKeyString e.ip = k
        · simp only [Function.comp, if_pos hk]
          exact key_of_replacement hr hk (hwf e he)
        · simp only [Function.comp, if_neg hk]
      rw [hmap, keysOf_take_self]
  · rw [upsert_not_found (fun e he hk => hex ⟨e, he, hk⟩)]
    constructor
    · simp
    · unfold keysOf
      rw [List.map_append]
      have hl : (store.map fun e => ipKeyString e.ip).length = store.length :=
        by simp
      rw [← hl, List.take_left]

theorem upsert_preserves_wf {store : List BgpNeighbor} {k : String}
    {r : BgpNeighbor} (hr : r.ip = parseIP k) (hwf : StoreWF store) :
    StoreWF (upsert store k r) := by
  intro e he s hes
  unfold upsert at he
  split at he
  · obtain ⟨x, hx, hfx⟩ := List.mem_map.mp he
    by_cases hk : ipKeyString x.ip = k
    · rw [if_pos hk] at hfx
      subst hfx
      rcases r_ip_cases hr with hnone | ⟨hsome, hv⟩
      · rw [hnone] at hes; exact absurd hes (by simp)
      · rw [hsome] at hes
        injection hes with h1
        rw [← h1]
        exact hv
    · rw [if_neg hk] at hfx
      subst hfx
      exact hwf x hx s hes
  · rcases List.mem_append.mp he with hin | hin
    · exact hwf e hin s hes
    · simp at hin
      subst hin
      rcases r_ip_cases hr with hnone | ⟨hsome, hv⟩
      · rw [hnone] at hes; exact absurd hes (by simp)
      · rw [hsome] at hes
        injection hes with h1
        rw [← h1]
        exact hv

theorem upsert_preserves_unique {store : List BgpNeighbor} {k : String}
    {r : BgpNeighbor} (hr : r.ip = parseIP k) (hwf : StoreWF store)
    (hu : UniqueIds store) : UniqueIds (upsert store k r) := by
  by_cases hex : ∃ e ∈ store, ipKeyString e.ip = k
  · rw [upsert_found hex]
    unfold UniqueIds
    rw [List.pairwise_map]
    refine hu.imp ?_
    intro a b hab s hfa hfb
    by_cases hka : ipKeyString a.ip = k
    · rw [if_pos hka] at hfa
      rcases r_ip_cases hr with hnone | ⟨hsome, hv⟩
      · rw [hnone] at hfa; exact absurd hfa (by simp)
      · rw [hsome] at hfa
        injection hfa with h1
        subst h1
        by_cases hkb : ipKeyString b.ip = k
        · exact hab k (ip_eq_of_key hv hka) (ip_eq_of_key hv hkb)
        · rw [if_neg hkb] at hfb
          exact hkb (by rw [hfb]; rfl)
    · rw [if_neg hka] at hfa
      by_cases hkb : ipKeyString b.ip = k
      · rw [if_pos hkb] at hfb
        rcases r_ip_cases hr with hnone | ⟨hsome, hv⟩
        · rw [hnone] at hfb; exact absurd hfb (by simp)
        · rw [hsome] at hfb
          injection hfb with h1
          subst h1
          exact hka (by rw [hfa]; rfl)
      · rw [if_neg hkb] at hfb
        exact hab s hfa hfb
  · rw [upsert_not_found (fun e he hk => hex ⟨e, he, hk⟩)]
    unfold UniqueIds
    rw [List.pairwise_append]
    refine ⟨hu, by simp, ?_⟩
    intro a ha b hb s has hbs
    simp at hb
    subst hb
    rcases r_ip_cases hr with hnone | ⟨hsome, hv⟩
    · rw [hnone] at hbs; exact absurd hbs (by simp)
    · rw [hsome] at hbs
      injection hbs with h1
      subst h1
      exact hex ⟨a, ha, by rw [has]; rfl⟩

theorem step_preserves_store (st : ParseState) (l : String)
    (hwf : StoreWF st.store) (hu : UniqueIds st.store) :
    StoreWF (stepLine st l).store ∧ UniqueIds (stepLine st l).store ∧
      st.store.length ≤ (stepLine st l).store.length ∧
      (keysOf (stepLine st l).store).take st.store.length
        = keysOf st.store := by
  cases hc : matchCounters l with
  | none =>
    have h := step_store_commits_of_no_ctr st hc
    rw [h.1]
    exact ⟨hwf, hu, le_refl _, keysOf_take_self _⟩
  | some q =>
    obtain ⟨e, d⟩ := q
    by_cases hn : st.neigh = ""
    · rw [step_noNeigh (header_none_of_ctr hc) hn]
      exact ⟨hwf, hu, le_refl _, keysOf_take_self _⟩
    · rw [step_ctr hc hn]
      have hr : (updCtr e d (updIp st.neigh st.bgpNeigh)).ip
          = parseIP st.neigh := by simp [updCtr, updIp]
      have hk := upsert_keys_take hr hwf
      exact ⟨upsert_preserves_wf hr hwf, upsert_preserves_unique hr hwf hu,
        hk.1, hk.2⟩

theorem parseLines_preserves_store (ls : List String) :
    ∀ st : ParseState, StoreWF st.store → UniqueIds st.store →
      StoreWF (parseLines st ls).store ∧ UniqueIds (parseLines st ls).store ∧
        st.store.length ≤ (parseLines st ls).store.length ∧
        (keysOf (parseLines st ls).store).take st.store.length
          = keysOf st.store := by
  induction ls with
  | nil => intro st hwf hu; exact ⟨hwf, hu, le_refl _, keysOf_take_self _⟩
  | cons l ls ih =>
    intro st hwf hu
    obtain ⟨w1, u1, len1, keys1⟩ := step_preserves_store st l hwf hu
    obtain ⟨w2, u2, len2, keys2⟩ := ih (stepLine st l) w1 u1
    simp only [parseLines, List.foldl_cons] at *
    refine ⟨w2, u2, le_trans len1 len2, ?_⟩
    have hsplit : (keysOf (List.foldl stepLine (stepLine st l) ls).store).take
          st.store.length
        = ((keysOf (List.foldl stepLine (stepLine st l) ls).store).take
            (stepLine st l).store.length).take st.store.length := by
      rw [List.take_take, min_eq_left len1]
    rw [hsplit, keys2, keys1]

theorem parseLines_block (es : List EntryLines) :
    ∀ st : ParseState, (∀ q ∈ es, WellFormedEntry q) →
      (parseLines st (blockOf es)).commits
        = st.commits ++ es.map
            (fun q => (q.addr, entryRecord q.addr q.word q.pfx q.est q.drp)) := by
  induction es with
  | nil => intro st _; simp [blockOf, parseLines]
  | cons q qs ih =>
    intro st h
    obtain ⟨hh, hv, hs, hw, hp, hc⟩ := h q (by simp)
    have hsplit : parseLines st (blockOf (q :: qs))
        = parseLines (parseLines st (entryLinesList q)) (blockOf qs) := by
      show List.foldl stepLine st (entryLinesList q ++ blockOf qs) = _
      rw [List.foldl_append]
      rfl
    rw [hsplit]
    rw [show entryLinesList q = [q.lh, q.ls, q.lp, q.lc] from rfl]
    rw [step_entry hh hs hp hc]
    rw [ih _ (fun x hx => h x (by simp [hx]))]
    simp

theorem stateOrd_eq_zero {w : String} (hw : w ∉ recognizedStateWords) :
    stateOrd w = 0 := by
  simp only [recognizedStateWords, List.mem_cons, List.not_mem_nil, or_false,
    not_or] at hw
  obtain ⟨h1, h2, h3, h4, h5, h6⟩ := hw
  simp [stateOrd, h1, h2, h3, h4, h5, h6]

/-- C1, counterexample: at a concrete failed acquisition the poll cycle is
fatal (log.Fatalf terminates the process); the cycle is not skipped, so
the claim that the process never terminates on acquisition failure is
false of the code. -/
theorem pollCycle_error_fatal_concrete :
    pollCycle (Except.error "exit status 1") ([] : List BgpNeighbor)
        = (CycleOutcome.fatal "Failed to execute vtysh command: exit status 1\n",
            ([] : List BgpNeighbor))
      ∧ (pollCycle (Except.error "exit status 1")
          ([] : List BgpNeighbor)).1 ≠ CycleOutcome.ran :=
  ⟨rfl, by decide⟩

/-- C1 (amended): when acquisition of the router text fails, the code logs
the failure and terminates the process via log.Fatalf before any parsing;
the stored records are unmodified at the point of termination. -/
theorem pollCycle_error_fatal (e : String) (store : List BgpNeighbor) :
    pollCycle (Except.error e) store
      = (CycleOutcome.fatal ("Failed to execute vtysh command: " ++ e ++ "\n"),
          store) := rfl

/-- C2: for every well-formed block of N complete neighbor entries
(header, session-state, accepted-prefixes and connection-counters lines in
that order, with pairwise distinct valid addresses and recognized state
words), parsing commits exactly N records, each carrying the identity,
state ordinal, accepted-prefix count and the two connection counters
captured from its entry's lines. -/
theorem wellformed_block_commits (es : List EntryLines)
    (hwf : ∀ q ∈ es, WellFormedEntry q)
    (hdist : (es.map EntryLines.addr).Pairwise (fun a b => a ≠ b)) :
    (runLines (blockOf es) []).commits
        = es.map (fun q => (q.addr, entryRecord q.addr q.word q.pfx q.est q.drp))
      ∧ (runLines (blockOf es) []).commits.length = es.length
      ∧ ∀ q ∈ es,
          (entryRecord q.addr q.word q.pfx q.est q.drp).ip = some q.addr := by
  have h := parseLines_block es exInit hwf
  have hcm : (runLines (blockOf es) []).commits
      = es.map (fun q => (q.addr, entryRecord q.addr q.word q.pfx q.est q.drp)) := by
    simpa using h
  refine ⟨hcm, ?_, ?_⟩
  · rw [hcm]
    simp
  · intro q hq
    have hv := (hwf q hq).2.1
    simp [entryRecord, parseIP, hv]

/-- C2 witness: the specification's four example lines for 10.0.0.1 commit
exactly one record with state ordinal 6, five accepted prefixes, twelve
established and one dropped connection. -/
theorem wellformed_block_commits_example :
    (runLines (blockOf [exEntry]) []).commits
        = [exEntry].map
            (fun q => (q.addr, entryRecord q.addr q.word q.pfx q.est q.drp))
      ∧ (runLines (blockOf [exEntry]) []).commits.length = [exEntry].length
      ∧ ∀ q ∈ [exEntry],
          (entryRecord q.addr q.word q.pfx q.est q.drp).ip = some q.addr :=
  wellformed_block_commits [exEntry] (by decide) (by simp)

/-- C3, counterexample: a session-state line with the unrecognized word
Unknown does not leave the state field at its prior value 6; it resets it
to 0. -/
theorem unknownStateWord_overwrites_concrete :
    matchState "  BGP state = Unknown, negotiated version 4" = some "Unknown"
      ∧ "Unknown" ∉ recognizedStateWords
      ∧ (runLines [exHeaderLine, exStateLine] []).bgpNeigh.state = 6
      ∧ (stepLine (runLines [exHeaderLine, exStateLine] [])
          "  BGP state = Unknown, negotiated version 4").bgpNeigh.state = 0 := by
  decide

/-- C3 (amended): processing a session-state line whose captured word is
not one of the six recognized values sets the in-progress record's state
field to 0 (the zero value of the unassigned switch variable), regardless
of its prior value. -/
theorem unknownStateWord_sets_zero (st : ParseState) (l w : String)
    (hs : matchState l = some w) (hw : w ∉ recognizedStateWords)
    (hn : st.neigh ≠ "") :
    (stepLine st l).bgpNeigh.state = 0 := by
  rw [step_state hs hn]
  exact stateOrd_eq_zero hw

/-- C3 witness for the amended statement. -/
theorem unknownStateWord_sets_zero_witness :
    (stepLine (runLines [exHeaderLine, exStateLine] [])
        "  BGP state = Unknown, negotiated version 4").bgpNeigh.state = 0 :=
  unknownStateWord_sets_zero (runLines [exHeaderLine, exStateLine] [])
    "  BGP state = Unknown, negotiated version 4" "Unknown"
    (by decide) (by decide) (by decide)

/-- C4: a record is committed only at a connection-counters line: a line
not matching the counters pattern never changes the store or the commit
trace; a counters line with no active neighbor does nothing; and a
counters-free run of lines (in particular, a header with no following
counters line up to end of input) contributes zero commits. -/
theorem commit_only_at_counters :
    (∀ (st : ParseState) (l : String), matchCounters l = none →
        (stepLine st l).store = st.store ∧ (stepLine st l).commits = st.commits)
      ∧ (∀ (st : ParseState) (l : String) (p : Nat × Nat), st.neigh = "" →
          matchCounters l = some p → stepLine st l = st)
      ∧ ∀ (st : ParseState) (ls : List String),
          (∀ l ∈ ls, matchCounters l = none) →
            (parseLines st ls).store = st.store
              ∧ (parseLines st ls).commits = st.commits :=
  ⟨fun st _ hc => step_store_commits_of_no_ctr st hc,
   fun _ _ _ hn hc => step_noNeigh (header_none_of_ctr hc) hn,
   fun st _ h => parseLines_no_ctr st h⟩

/-- C4 witness on concrete inputs. -/
theorem commit_only_at_counters_witness :
    ((stepLine (runLines [exHeaderLine] []) exStateLine).store
          = (runLines [exHeaderLine] []).store
        ∧ (stepLine (runLines [exHeaderLine] []) exStateLine).commits
          = (runLines [exHeaderLine] []).commits)
      ∧ stepLine exInit exCtrLine = exInit
      ∧ ((parseLines (runLines [exHeaderLine] []) [exStateLine, exPfxLine]).store
          = (runLines [exHeaderLine] []).store
        ∧ (parseLines (runLines [exHeaderLine] [])
            [exStateLine, exPfxLine]).commits
          = (runLines [exHeaderLine] []).commits) :=
  ⟨commit_only_at_counters.1 (runLines [exHeaderLine] []) exStateLine (by decide),
   commit_only_at_counters.2.1 exInit exCtrLine (12, 1) rfl (by decide),
   commit_only_at_counters.2.2 (runLines [exHeaderLine] [])
     [exStateLine, exPfxLine] (by decide)⟩

/-- C5: the commit block is insert-or-full-replace: when no stored record
has the key, the record is appended; when some stored record has the key,
the store keeps its length, every position holding the key now holds the
new record in all its fields, and every other position is untouched. -/
theorem upsert_insert_or_replace (store : List BgpNeighbor) (k : String)
    (r : BgpNeighbor) :
    ((∀ e ∈ store, ipKeyString e.ip ≠ k) → upsert store k r = store ++ [r])
      ∧ ((∃ e ∈ store, ipKeyString e.ip = k) →
          (upsert store k r).length = store.length
            ∧ (∀ (i : Nat) (ei : BgpNeighbor), store[i]? = some ei →
                ipKeyString ei.ip = k → (upsert store k r)[i]? = some r)
            ∧ (∀ (i : Nat) (ei : BgpNeighbor), store[i]? = some ei →
                ipKeyString ei.ip ≠ k → (upsert store k r)[i]? = some ei)) := by
  refine ⟨fun h => upsert_not_found h, fun hex => ?_⟩
  rw [upsert_found hex]
  refine ⟨by simp, ?_, ?_⟩
  · intro i ei hi hk
    rw [List.getElem?_map, hi]
    simp [hk]
  · intro i ei hi hk
    rw [List.getElem?_map, hi]
    simp [hk]

/-- C5 witness: inserting into an empty store appends; upserting an
updated record for a present key fully replaces the stored record. -/
theorem upsert_insert_or_replace_witness :
    upsert [] "10.0.0.1" exRec1 = [] ++ [exRec1]
      ∧ (upsert [exRec1] "10.0.0.1" exRec2)[0]? = some exRec2 :=
  ⟨(upsert_insert_or_replace [] "10.0.0.1" exRec1).1 (by simp),
   ((upsert_insert_or_replace [exRec1] "10.0.0.1" exRec2).2
      ⟨exRec1, by simp, by decide⟩).2.1 0 exRec1 (by decide) (by decide)⟩

/-- C6, counterexample: after the first counters commit the in-progress
pointer is not cleared: a second counters line before any header line
produces a second commit for the same identity, and the stored record
reflects the second line.  The claim predicts one commit and counters 1
and 2. -/
theorem second_counters_recommits_concrete :
    (runLines [exHeaderLine,
        "  Connections established 1; dropped 2",
        "  Connections established 3; dropped 4"] []).commits.length = 2
      ∧ (runLines [exHeaderLine,
          "  Connections established 1; dropped 2",
          "  Connections established 3; dropped 4"] []).store
        = [{ ip := some "10.0.0.1", state := 0, acceptedPrefixes := 0,
                                    connectionsEstablished := 3,
                                    connectionsDropped := 4 }] := by
  decide

/-- C6 (amended): a connection-counters commit does not clear the
in-progress pointer: the active neighbor and the just-committed record
remain current, so lines between a commit and the next header keep
updating the in-progress record and any further counters line performs
another commit for the same identity, replacing the stored record.  The
state here is arbitrary, so this applies in particular immediately after
an earlier commit. -/
theorem counters_commit_retains_pointer (st : ParseState) (l : String)
    (e d : Nat) (hc : matchCounters l = some (e, d)) (hn : st.neigh ≠ "") :
    (stepLine st l).commits
        = st.commits ++ [(st.neigh, updCtr e d (updIp st.neigh st.bgpNeigh))]
      ∧ (stepLine st l).neigh = st.neigh
      ∧ (stepLine st l).bgpNeigh = updCtr e d (updIp st.neigh st.bgpNeigh)
      ∧ (stepLine st l).store
          = upsert st.store st.neigh
              (updCtr e d (updIp st.neigh st.bgpNeigh)) := by
  rw [step_ctr hc hn]
  exact ⟨rfl, rfl, rfl, rfl⟩

/-- C6 witness: applied to the state reached right after a first commit,
showing the second commit concretely. -/
theorem counters_commit_retains_pointer_witness :
    (stepLine exPostCommit "  Connections established 3; dropped 4").commits
        = exPostCommit.commits ++ [(exPostCommit.neigh,
            updCtr 3 4 (updIp exPostCommit.neigh exPostCommit.bgpNeigh))]
      ∧ (stepLine exPostCommit
          "  Connections established 3; dropped 4").neigh = exPostCommit.neigh
      ∧ (stepLine exPostCommit "  Connections established 3; dropped 4").bgpNeigh
          = updCtr 3 4 (updIp exPostCommit.neigh exPostCommit.bgpNeigh)
      ∧ (stepLine exPostCommit "  Connections established 3; dropped 4").store
          = upsert exPostCommit.store exPostCommit.neigh
              (updCtr 3 4 (updIp exPostCommit.neigh exPostCommit.bgpNeigh)) :=
  counters_commit_retains_pointer exPostCommit
    "  Connections established 3; dropped 4" 3 4 (by decide) (by decide)

/-- C7, counterexample: a header whose captured address 1.2.3 fails to
parse still opens an in-progress record, and the following counters line
commits a record under that unparseable identity (with nil IP); the claim
says no record is ever committed under an unparseable identity. -/
theorem unparseable_identity_committed_concrete :
    isValidIPv4 "1.2.3" = false
      ∧ (runLines ["BGP neighbor is 1.2.3, remote AS 65000",
          "  Connections established 1; dropped 2"] []).commits
        = [("1.2.3", { ip := none, state := 0, acceptedPrefixes := 0,
                       connectionsEstablished := 1,
                       connectionsDropped := 2 })] := by
  decide

/-- C7 (amended): a header line whose captured address fails to parse is
not treated as unrecognized: it still opens an in-progress record (with
nil identity, all other fields zero) and makes that address the active
neighbor; the header line itself changes neither store nor commits. -/
theorem unparseable_header_opens_record (st : ParseState) (l a : String)
    (hh : matchHeader l = some a) (hv : isValidIPv4 a = false) :
    (stepLine st l).neigh = a
      ∧ (stepLine st l).bgpNeigh.ip = none
      ∧ (stepLine st l).store = st.store
      ∧ (stepLine st l).commits = st.commits := by
  rw [step_header hh]
  refine ⟨rfl, ?_, rfl, rfl⟩
  simp [updIp, parseIP, hv]

/-- C7 witness for the amended statement. -/
theorem unparseable_header_opens_record_witness :
    (stepLine exInit "BGP neighbor is 1.2.3, remote AS 65000").neigh = "1.2.3"
      ∧ (stepLine exInit "BGP neighbor is 1.2.3, remote AS 65000").bgpNeigh.ip
          = none
      ∧ (stepLine exInit "BGP neighbor is 1.2.3, remote AS 65000").store
          = exInit.store
      ∧ (stepLine exInit "BGP neighbor is 1.2.3, remote AS 65000").commits
          = exInit.commits :=
  unparseable_header_opens_record exInit
    "BGP neighbor is 1.2.3, remote AS 65000" "1.2.3" (by decide) (by decide)

/-- C9: parsing is invariant under inserting, at arbitrary positions,
lines matching none of the four classifier patterns: the noisy block
produces the same final parse state, hence the same committed records and
the same store, for any starting store. -/
theorem noise_insensitive (xs ys : List String) (store : List BgpNeighbor)
    (h : Noisy xs ys) : runLines ys store = runLines xs store :=
  parseLines_noisy h _ (fun hne => absurd rfl hne)

/-- C9 witness: a blank line and an arbitrary unmatched line inserted into
the example block leave the parse unchanged. -/
theorem noise_insensitive_example :
    runLines ["", exHeaderLine, "unrecognized noise", exCtrLine] []
      = runLines [exHeaderLine, exCtrLine] [] :=
  noise_insensitive [exHeaderLine, exCtrLine]
    ["", exHeaderLine, "unrecognized noise", exCtrLine] []
    (Noisy.noise "" (by decide)
      (Noisy.keep exHeaderLine
        (Noisy.noise "unrecognized noise" (by decide)
          (Noisy.keep exCtrLine Noisy.nil))))

/-- C10, counterexample: committing the same unparseable header twice
yields two stored entries whose identity keys are both the nil key, so
the store does not hold at most one record per identity key. -/
theorem duplicate_nil_identity_concrete :
    (runLines ["BGP neighbor is 1.2.3, remote AS 65000",
        "  Connections established 1; dropped 2",
        "BGP neighbor is 1.2.3, remote AS 65000",
        "  Connections established 3; dropped 4"] []).store.length = 2
      ∧ keysOf (runLines ["BGP neighbor is 1.2.3, remote AS 65000",
          "  Connections established 1; dropped 2",
          "BGP neighbor is 1.2.3, remote AS 65000",
          "  Connections established 3; dropped 4"] []).store
        = ["<nil>", "<nil>"] := by
  decide

/-- C10 (amended): over any parsed block the store never shrinks - its
length never decreases and every existing position keeps its identity key
(values being overwritten in place by later commits) - and it holds at
most one record per parsed identity; records committed under unparseable
addresses carry the nil identity and may accumulate. -/
theorem store_never_shrinks_at_most_one (ls : List String)
    (store : List BgpNeighbor) (hwf : StoreWF store) (hu : UniqueIds store) :
    store.length ≤ (runLines ls store).store.length
      ∧ (keysOf (runLines ls store).store).take store.length = keysOf store
      ∧ StoreWF (runLines ls store).store
      ∧ UniqueIds (runLines ls store).store := by
  obtain ⟨w, u, len, keys⟩ := parseLines_preserves_store ls
    { neigh := "", bgpNeigh := newRecord, store := store, commits := [] } hwf hu
  exact ⟨len, keys, w, u⟩

/-- C10 witness for the amended statement, from the empty store. -/
theorem store_never_shrinks_at_most_one_witness :
    ([] : List BgpNeighbor).length
        ≤ (runLines [exHeaderLine, exCtrLine] []).store.length
      ∧ (keysOf (runLines [exHeaderLine, exCtrLine] []).store).take
          ([] : List BgpNeighbor).length = keysOf []
      ∧ StoreWF (runLines [exHeaderLine, exCtrLine] []).store
      ∧ UniqueIds (runLines [exHeaderLine, exCtrLine] []).store :=
  store_never_shrinks_at_most_one [exHeaderLine, exCtrLine] []
    (fun e he => absurd he (List.not_mem_nil e)) List.Pairwise.nil

end BgpExporter
